import Mathlib

/- Verification of the bounded priority ring buffer implemented in
producer_consumer.c.

The C program implements a circular bounded buffer with two priority
classes (normal and urgent), counting semaphores for capacity control,
and poison-pill sentinels for shutdown.  This file embeds the buffer
operations (insert_item, remove_item), the semaphore bookkeeping of a
complete enqueue/dequeue call, the input validation, and the producer
item generation as executable Lean definitions, and proves or refutes
the specification claims about them.  Machine integers are modelled as
Int/Nat; the C modulus expressions of the form (x - y + size) % size
are written with Nat subtraction rearranged so that no truncation
occurs on the domain on which the C code evaluates them. -/

set_option linter.unusedVariables false

/-- One slot of the buffer: mirrors struct BufferItem with fields value,
priority and enqueue_time.  The timeval timestamp is abstracted as an
integer. -/
structure BufferItem where
  value : Int
  priority : Nat
  enqueue_time : Int
deriving DecidableEq, Repr

instance : Inhabited BufferItem := ⟨⟨0, 0, 0⟩⟩

/-- The constant POISON_PILL (-1) from the C source. -/
def POISON_PILL : Int := -1

/-- The constant PRIORITY_NORMAL (0). -/
def PRIORITY_NORMAL : Nat := 0

/-- The constant PRIORITY_URGENT (1). -/
def PRIORITY_URGENT : Nat := 1

/-- Mirrors struct CircularBuffer: backing array, capacity (size),
current count, head index and tail index. -/
structure CircularBuffer where
  items : List BufferItem
  size : Nat
  count : Nat
  head : Nat
  tail : Nat
deriving DecidableEq, Repr

/-- The scan loop of insert_item (producer_consumer.c lines 156-163):
starting at offset i from the tail end it counts how many consecutive
slots at the end of the queue hold normal-priority items, examining at
most fuel further slots and stopping at the first non-normal slot.
The C index expression (head + count - 1 - i + size) % size is written
(head + count + size - 1 - i) % size, the same number because every
evaluated iteration has i < count. -/
def scanNormals (b : CircularBuffer) (i fuel : Nat) : Nat :=
  match fuel with
  | 0 => 0
  | fuel + 1 =>
    if (b.items.getD ((b.head + b.count + b.size - 1 - i) % b.size) default).priority
        = PRIORITY_NORMAL then
      scanNormals b (i + 1) fuel + 1
    else 0

/-- items_to_shift as computed by the loop at lines 156-163: the loop
runs i = 0 .. count-1, so the initial offset is 0 and the fuel is
count. -/
def items_to_shift (b : CircularBuffer) : Nat := scanNormals b 0 b.count

/-- The shift loop of insert_item (lines 171-175): iteration i copies
the slot at (tail - 1 - i + size) % size into (tail - i + size) % size.
Written with Nat subtraction as (tail + size - 1 - i) and
(tail + size - i); identical values because every evaluated iteration
has i < size. -/
def shiftLoop (size tail : Nat) (i fuel : Nat) (items : List BufferItem) : List BufferItem :=
  match fuel with
  | 0 => items
  | fuel + 1 =>
    shiftLoop size tail (i + 1) fuel
      (items.set ((tail + size - i) % size)
        (items.getD ((tail + size - 1 - i) % size) default))

/-- The critical section of insert_item (lines 148-192).  An urgent,
non-poison item shifts the run of trailing normal items one slot toward
the tail and is written into the vacated slot
(tail - items_to_shift + size) % size; every other item (normal
priority or poison pill) is written at the tail.  count is always
incremented and the tail always advances by one. -/
def insert_item (b : CircularBuffer) (item : BufferItem) : CircularBuffer :=
  if item.priority = PRIORITY_URGENT ∧ item.value ≠ POISON_PILL then
    let k := items_to_shift b
    if 0 < k then
      let new_tail := (b.tail + 1) % b.size
      let shifted := shiftLoop b.size b.tail 0 k b.items
      let insert_pos := (b.tail + b.size - k) % b.size
      { b with items := shifted.set insert_pos item,
               tail := new_tail, count := b.count + 1 }
    else
      { b with items := b.items.set b.tail item,
               tail := (b.tail + 1) % b.size, count := b.count + 1 }
  else
    { b with items := b.items.set b.tail item,
             tail := (b.tail + 1) % b.size, count := b.count + 1 }

/-- The critical section of remove_item (lines 214-217): read the item
at head, advance head modulo size, decrement count.  Returns the item
and the new buffer. -/
def remove_item (b : CircularBuffer) : BufferItem × CircularBuffer :=
  (b.items.getD b.head default,
   { b with head := (b.head + 1) % b.size, count := b.count - 1 })

/-- Queue state together with the two counting semaphores: empty
(available slots, initialised to size) and full (ready items,
initialised to 0). -/
structure SysState where
  buf : CircularBuffer
  empty : Nat
  full : Nat
deriving DecidableEq, Repr

/-- init_buffer (lines 82-123): zeroed count/head/tail, the empty
semaphore at size, the full semaphore at 0. -/
def init_buffer (size : Nat) : SysState :=
  { buf := { items := List.replicate size default, size := size,
             count := 0, head := 0, tail := 0 },
    empty := size, full := 0 }

/-- A complete insert_item call in the sequential embedding:
sem_wait(&empty) removes one unit from empty (the call is enabled only
while empty > 0), the critical section runs, sem_post(&full) adds one
unit to full. -/
def enqueue (s : SysState) (item : BufferItem) : SysState :=
  { buf := insert_item s.buf item, empty := s.empty - 1, full := s.full + 1 }

/-- A complete remove_item call: sem_wait(&full) removes one unit from
full (enabled only while full > 0), the critical section runs,
sem_post(&empty) adds one unit to empty. -/
def dequeue (s : SysState) : BufferItem × SysState :=
  ((remove_item s.buf).1,
   { buf := (remove_item s.buf).2, empty := s.empty + 1, full := s.full - 1 })

/-- Representation invariant of the ring: the array has exactly size
slots, size is positive, head is in range, count fits, and tail sits
count slots after head modulo size. -/
def WF (b : CircularBuffer) : Prop :=
  b.items.length = b.size ∧ 0 < b.size ∧ b.head < b.size ∧
  b.count ≤ b.size ∧ b.tail = (b.head + b.count) % b.size

/-- The item at logical position p, i.e. p slots after head. -/
def logItem (b : CircularBuffer) (p : Nat) : BufferItem :=
  b.items.getD ((b.head + p) % b.size) default

/-- The occupied slots in traversal order from head. -/
def toList (b : CircularBuffer) : List BufferItem :=
  (List.range b.count).map (logItem b)

/-- An item of the urgent priority class. -/
def is_urgent (it : BufferItem) : Bool := it.priority == PRIORITY_URGENT

/-- A poison-pill sentinel as built by main (lines 447-453): value
POISON_PILL, priority PRIORITY_URGENT. -/
def is_sentinel (it : BufferItem) : Bool :=
  it.priority == PRIORITY_URGENT && it.value == POISON_PILL

/-! Helper lemmas about list indexing and modular slot arithmetic. -/

theorem getD_set_self {α : Type _} {l : List α} {i : Nat} (a d : α) (h : i < l.length) :
    (l.set i a).getD i d = a := by
  rw [List.getD_eq_getElem?_getD, List.getElem?_set_self h]
  rfl

theorem getD_set_ne {α : Type _} {l : List α} {i j : Nat} (a d : α) (h : i ≠ j) :
    (l.set i a).getD j d = l.getD j d := by
  rw [List.getD_eq_getElem?_getD, List.getElem?_set_ne h, ← List.getD_eq_getElem?_getD]

theorem getD_eq_getElem {α : Type _} {l : List α} {p : Nat} (d : α) (h : p < l.length) :
    l.getD p d = l[p] := by
  rw [List.getD_eq_getElem?_getD, List.getElem?_eq_getElem h]
  rfl

theorem ext_getD {α : Type _} {l₁ l₂ : List α} (d : α) (hlen : l₁.length = l₂.length)
    (h : ∀ p, p < l₁.length → l₁.getD p d = l₂.getD p d) : l₁ = l₂ := by
  refine List.ext_getElem hlen (fun p h1 h2 => ?_)
  have hp := h p h1
  rwa [getD_eq_getElem d h1, getD_eq_getElem d h2] at hp

/-- Distinct logical positions below size map to distinct physical slots. -/
theorem slot_inj {s h p q : Nat} (hp : p < s) (hq : q < s)
    (he : (h + p) % s = (h + q) % s) : p = q := by
  have h1 : p % s = q % s := Nat.ModEq.add_left_cancel' h he
  rwa [Nat.mod_eq_of_lt hp, Nat.mod_eq_of_lt hq] at h1

/-- Walking x slots back from the tail slot (h + c) % s lands on the
slot of logical position c - x. -/
theorem slot_sub {h c s x : Nat} (hx : x ≤ c) (hxs : x ≤ s) :
    ((h + c) % s + s - x) % s = (h + (c - x)) % s := by
  have h1 : (h + c) % s + s - x = (h + c) % s + (s - x) := by omega
  rw [h1, Nat.mod_add_mod]
  have h2 : h + c + (s - x) = h + (c - x) + s := by omega
  rw [h2, Nat.add_mod_right]

theorem length_toList (b : CircularBuffer) : (toList b).length = b.count := by
  simp [toList]

theorem toList_getD {b : CircularBuffer} {p : Nat} (hp : p < b.count) :
    (toList b).getD p default = logItem b p := by
  have hl : p < (toList b).length := by rwa [length_toList]
  rw [getD_eq_getElem default hl]
  simp [toList]

/-- Insertion of an element at position n of a list, specification-side. -/
def insertAtPos {α : Type _} (l : List α) (n : Nat) (a : α) : List α :=
  l.take n ++ a :: l.drop n

theorem length_insertAtPos {α : Type _} (l : List α) {n : Nat} (a : α) (hn : n ≤ l.length) :
    (insertAtPos l n a).length = l.length + 1 := by
  simp [insertAtPos]
  omega

theorem getD_insertAtPos_lt {α : Type _} {l : List α} {n p : Nat} (a d : α)
    (hn : n ≤ l.length) (hp : p < n) :
    (insertAtPos l n a).getD p d = l.getD p d := by
  have ht : (l.take n).length = n := by simp; omega
  unfold insertAtPos
  rw [List.getD_append _ _ _ _ (by omega)]
  rw [getD_eq_getElem d (by omega), getD_eq_getElem d (by omega)]
  exact List.getElem_take l

theorem getD_insertAtPos_self {α : Type _} {l : List α} {n : Nat} (a d : α)
    (hn : n ≤ l.length) :
    (insertAtPos l n a).getD n d = a := by
  have ht : (l.take n).length = n := by simp; omega
  unfold insertAtPos
  rw [List.getD_append_right _ _ _ _ (by omega), ht, Nat.sub_self, List.getD_cons_zero]

theorem getD_drop {α : Type _} (l : List α) (n p : Nat) (d : α) (h : n + p < l.length) :
    (l.drop n).getD p d = l.getD (n + p) d := by
  rw [getD_eq_getElem d (by rw [List.length_drop]; omega), getD_eq_getElem d h]
  exact List.getElem_drop l

theorem getD_insertAtPos_gt {α : Type _} {l : List α} {n p : Nat} (a d : α)
    (hn : n ≤ l.length) (hp : n < p) :
    (insertAtPos l n a).getD p d = l.getD (p - 1) d := by
  have ht : (l.take n).length = n := by simp; omega
  unfold insertAtPos
  rw [List.getD_append_right _ _ _ _ (by omega), ht]
  have h2 : p - n = (p - n - 1) + 1 := by omega
  rw [h2, List.getD_cons_succ]
  rcases Nat.lt_or_ge (p - 1) l.length with hlt | hge
  · rw [getD_drop l n (p - n - 1) d (by omega),
      show n + (p - n - 1) = p - 1 from by omega]
  · rw [List.getD_eq_default _ _ (by simp; omega), List.getD_eq_default _ _ (by omega)]

theorem insertAtPos_length_self {α : Type _} (l : List α) (a : α) :
    insertAtPos l l.length a = l ++ [a] := by
  unfold insertAtPos
  rw [List.take_length, List.drop_length]

/-! Characterisation of the insert_item scan loop. -/

theorem scanNormals_zero (b : CircularBuffer) (i : Nat) : scanNormals b i 0 = 0 := rfl

theorem scanNormals_succ (b : CircularBuffer) (i fuel : Nat) :
    scanNormals b i (fuel + 1) =
      if (b.items.getD ((b.head + b.count + b.size - 1 - i) % b.size) default).priority
          = PRIORITY_NORMAL then
        scanNormals b (i + 1) fuel + 1
      else 0 := rfl

theorem scanNormals_le (b : CircularBuffer) : ∀ fuel i, scanNormals b i fuel ≤ fuel := by
  intro fuel
  induction fuel with
  | zero => intro i; simp [scanNormals_zero]
  | succ fuel ih =>
    intro i
    rw [scanNormals_succ]
    split
    · exact Nat.succ_le_succ (ih (i + 1))
    · exact Nat.zero_le _

theorem scanNormals_normal (b : CircularBuffer) :
    ∀ fuel i j, j < scanNormals b i fuel →
      (b.items.getD ((b.head + b.count + b.size - 1 - (i + j)) % b.size) default).priority
        = PRIORITY_NORMAL := by
  intro fuel
  induction fuel with
  | zero => intro i j h; rw [scanNormals_zero] at h; omega
  | succ fuel ih =>
    intro i j h
    rw [scanNormals_succ] at h
    split at h
    · rename_i hnorm
      match j with
      | 0 => simpa using hnorm
      | j + 1 =>
        have hrec := ih (i + 1) j (by omega)
        rw [show i + (j + 1) = (i + 1) + j by omega]
        exact hrec
    · omega

theorem scanNormals_stop (b : CircularBuffer) :
    ∀ fuel i, scanNormals b i fuel < fuel →
      (b.items.getD
          ((b.head + b.count + b.size - 1 - (i + scanNormals b i fuel)) % b.size)
          default).priority ≠ PRIORITY_NORMAL := by
  intro fuel
  induction fuel with
  | zero => intro i h; omega
  | succ fuel ih =>
    intro i h
    by_cases hnorm : (b.items.getD ((b.head + b.count + b.size - 1 - i) % b.size)
        default).priority = PRIORITY_NORMAL
    · rw [scanNormals_succ, if_pos hnorm] at h ⊢
      have hrec := ih (i + 1) (by omega)
      rw [show i + (scanNormals b (i + 1) fuel + 1) = (i + 1) + scanNormals b (i + 1) fuel
        by omega]
      exact hrec
    · rw [scanNormals_succ, if_neg hnorm]
      simpa using hnorm

theorem items_to_shift_le (b : CircularBuffer) : items_to_shift b ≤ b.count :=
  scanNormals_le b b.count 0

/-- For an in-range offset j the scan index denotes the slot of logical
position count - 1 - j. -/
theorem scan_index_eq (b : CircularBuffer) {j : Nat} (hj : j < b.count) :
    (b.head + b.count + b.size - 1 - j) % b.size
      = (b.head + (b.count - 1 - j)) % b.size := by
  have h1 : b.head + b.count + b.size - 1 - j = b.head + (b.count - 1 - j) + b.size := by
    omega
  rw [h1, Nat.add_mod_right]

/-- Every logical position in the scanned trailing run holds a
normal-priority item. -/
theorem items_to_shift_normal (b : CircularBuffer) {p : Nat}
    (h1 : b.count - items_to_shift b ≤ p) (h2 : p < b.count) :
    (logItem b p).priority = PRIORITY_NORMAL := by
  have hk := items_to_shift_le b
  have hj : b.count - 1 - p < items_to_shift b := by omega
  have hres := scanNormals_normal b b.count 0 (b.count - 1 - p) hj
  rw [show (0 : Nat) + (b.count - 1 - p) = b.count - 1 - p by omega] at hres
  rw [scan_index_eq b (by omega)] at hres
  rw [show b.count - 1 - (b.count - 1 - p) = p by omega] at hres
  simpa [logItem] using hres

/-- When the scan stops early, the item just before the trailing normal
run does not have normal priority. -/
theorem items_to_shift_stop (b : CircularBuffer)
    (h : items_to_shift b < b.count) :
    (logItem b (b.count - 1 - items_to_shift b)).priority ≠ PRIORITY_NORMAL := by
  have hres := scanNormals_stop b b.count 0 h
  rw [show (0 : Nat) + scanNormals b 0 b.count = items_to_shift b by
    simp [items_to_shift]] at hres
  rw [scan_index_eq b (by omega)] at hres
  simpa [logItem] using hres

/-! Characterisation of the insert_item shift loop. -/

theorem shiftLoop_zero (size tail i : Nat) (items : List BufferItem) :
    shiftLoop size tail i 0 items = items := rfl

theorem shiftLoop_succ (size tail i fuel : Nat) (items : List BufferItem) :
    shiftLoop size tail i (fuel + 1) items =
      shiftLoop size tail (i + 1) fuel
        (items.set ((tail + size - i) % size)
          (items.getD ((tail + size - 1 - i) % size) default)) := rfl

theorem shiftLoop_length (size tail : Nat) :
    ∀ fuel i items, (shiftLoop size tail i fuel items).length = items.length := by
  intro fuel
  induction fuel with
  | zero => intro i items; rfl
  | succ fuel ih => intro i items; rw [shiftLoop_succ, ih, List.length_set]

/-- What the shift loop does, phrased over logical positions: for every
offset j covered by the remaining fuel, the slot of logical position
c - j receives the item previously at logical position c - 1 - j, and
every slot not written stays unchanged. -/
theorem shiftLoop_spec {s h c : Nat} (hs : 0 < s) (hc : c < s) {k : Nat} (hk : k ≤ c) :
    ∀ fuel i m, m.length = s → i + fuel ≤ k →
      (∀ j, i ≤ j → j < i + fuel →
        (shiftLoop s ((h + c) % s) i fuel m).getD ((h + (c - j)) % s) default
          = m.getD ((h + (c - 1 - j)) % s) default)
      ∧ (∀ q, (∀ j, i ≤ j → j < i + fuel → q ≠ (h + (c - j)) % s) →
        (shiftLoop s ((h + c) % s) i fuel m).getD q default = m.getD q default) := by
  intro fuel
  induction fuel with
  | zero =>
    intro i m hm hif
    refine ⟨fun j hj1 hj2 => ?_, fun q hq => ?_⟩
    · omega
    · rfl
  | succ fuel ih =>
    intro i m hm hif
    rw [shiftLoop_succ]
    have htoIdx : ((h + c) % s + s - i) % s = (h + (c - i)) % s :=
      slot_sub (by omega) (by omega)
    have hfromIdx : ((h + c) % s + s - 1 - i) % s = (h + (c - 1 - i)) % s := by
      rw [show (h + c) % s + s - 1 - i = (h + c) % s + s - (1 + i) by omega]
      rw [slot_sub (by omega) (by omega), show c - (1 + i) = c - 1 - i by omega]
    set m2 := m.set (((h + c) % s + s - i) % s)
      (m.getD (((h + c) % s + s - 1 - i) % s) default) with hm2
    have hm2len : m2.length = s := by rw [hm2, List.length_set, hm]
    obtain ⟨ihW, ihU⟩ := ih (i + 1) m2 hm2len (by omega)
    constructor
    · intro j hj1 hj2
      rcases Nat.eq_or_lt_of_le hj1 with hji | hji
      · subst hji
        have hne : ∀ j2, i + 1 ≤ j2 → j2 < (i + 1) + fuel →
            (h + (c - i)) % s ≠ (h + (c - j2)) % s := by
          intro j2 hx1 hx2 heq
          have := slot_inj (show c - i < s by omega) (show c - j2 < s by omega) heq
          omega
        rw [ihU ((h + (c - i)) % s) hne, hm2, htoIdx]
        rw [getD_set_self _ _ (by rw [hm]; exact Nat.mod_lt _ hs)]
        rw [hfromIdx]
      · have hw := ihW j (by omega) (by omega)
        rw [hw, hm2, htoIdx]
        have hne : (h + (c - i)) % s ≠ (h + (c - 1 - j)) % s := by
          intro heq
          have := slot_inj (show c - i < s by omega) (show c - 1 - j < s by omega) heq
          omega
        rw [getD_set_ne _ _ hne]
    · intro q hq
      have hq2 : ∀ j2, i + 1 ≤ j2 → j2 < (i + 1) + fuel → q ≠ (h + (c - j2)) % s := by
        intro j2 hx1 hx2
        exact hq j2 (by omega) (by omega)
      rw [ihU q hq2, hm2, htoIdx]
      have hne : (h + (c - i)) % s ≠ q := by
        intro heq
        exact hq i (Nat.le_refl i) (by omega) heq.symm
      rw [getD_set_ne _ _ hne]

/-! Field-level effects and well-formedness preservation. -/

theorem insert_item_fields (b : CircularBuffer) (item : BufferItem) :
    (insert_item b item).size = b.size ∧ (insert_item b item).head = b.head ∧
    (insert_item b item).count = b.count + 1 ∧
    (insert_item b item).tail = (b.tail + 1) % b.size ∧
    (insert_item b item).items.length = b.items.length := by
  unfold insert_item
  split
  · dsimp only
    split
    · exact ⟨rfl, rfl, rfl, rfl, by rw [List.length_set, shiftLoop_length]⟩
    · exact ⟨rfl, rfl, rfl, rfl, by rw [List.length_set]⟩
  · exact ⟨rfl, rfl, rfl, rfl, by rw [List.length_set]⟩

theorem remove_item_fields (b : CircularBuffer) :
    (remove_item b).2.size = b.size ∧ (remove_item b).2.count = b.count - 1 ∧
    (remove_item b).2.tail = b.tail ∧ (remove_item b).2.items = b.items ∧
    (remove_item b).2.head = (b.head + 1) % b.size :=
  ⟨rfl, rfl, rfl, rfl, rfl⟩

theorem WF_insert {b : CircularBuffer} (hw : WF b) (hlt : b.count < b.size)
    (item : BufferItem) : WF (insert_item b item) := by
  obtain ⟨hlen, hs, hh, hcnt, ht⟩ := hw
  obtain ⟨h1, h2, h3, h4, h5⟩ := insert_item_fields b item
  refine ⟨by rw [h5, h1, hlen], by rw [h1]; exact hs, by rw [h2, h1]; exact hh,
    by rw [h3, h1]; omega, ?_⟩
  rw [h4, h1, h2, h3, ht, Nat.mod_add_mod]
  rw [show b.head + b.count + 1 = b.head + (b.count + 1) by omega]

theorem WF_remove {b : CircularBuffer} (hw : WF b) (hpos : 0 < b.count) :
    WF (remove_item b).2 := by
  obtain ⟨hlen, hs, hh, hcnt, ht⟩ := hw
  obtain ⟨h1, h2, h3, h4, h5⟩ := remove_item_fields b
  refine ⟨by rw [h4, h1, hlen], by rw [h1]; exact hs,
    by rw [h5, h1]; exact Nat.mod_lt _ hs, by rw [h2, h1]; omega, ?_⟩
  rw [h3, h5, h2, h1, ht, Nat.mod_add_mod]
  rw [show b.head + 1 + (b.count - 1) = b.head + b.count by omega]

/-! Effect of the operations on the logical content. -/

/-- Writing at the tail slot and bumping tail and count appends the item
to the logical content. -/
theorem toList_set_tail {b : CircularBuffer} (hw : WF b) (hlt : b.count < b.size)
    (item : BufferItem) :
    toList { b with items := b.items.set b.tail item,
                    tail := (b.tail + 1) % b.size, count := b.count + 1 }
      = toList b ++ [item] := by
  obtain ⟨hlen, hs, hh, hcnt, ht⟩ := hw
  set b2 : CircularBuffer := ({ b with items := b.items.set b.tail item,
                                       tail := (b.tail + 1) % b.size,
                                       count := b.count + 1 } : CircularBuffer)
  have hc2 : b2.count = b.count + 1 := rfl
  have hi2 : b2.items = b.items.set b.tail item := rfl
  have hlog : ∀ q, q < b2.count →
      (toList b2).getD q default = b2.items.getD ((b.head + q) % b.size) default :=
    fun q hq => toList_getD hq
  refine ext_getD default ?_ ?_
  · rw [length_toList, hc2]
    simp [length_toList]
  · intro p hp
    rw [length_toList, hc2] at hp
    rcases Nat.lt_or_ge p b.count with hplt | hpge
    · rw [hlog p (by rw [hc2]; omega), hi2]
      have hne : b.tail ≠ (b.head + p) % b.size := by
        rw [ht]
        intro heq
        have := slot_inj (show b.count < b.size by omega) (show p < b.size by omega) heq
        omega
      rw [getD_set_ne _ _ hne]
      rw [List.getD_append _ _ _ _ (by rw [length_toList]; omega)]
      rw [toList_getD hplt]
      rfl
    · have hpe : p = b.count := by omega
      subst hpe
      rw [hlog b.count (by rw [hc2]; omega), hi2, ← ht]
      rw [getD_set_self _ _ (by rw [hlen, ht]; exact Nat.mod_lt _ hs)]
      rw [List.getD_append_right _ _ _ _ (by rw [length_toList]), length_toList,
        Nat.sub_self, List.getD_cons_zero]

/-- Master lemma for insert_item: an urgent non-poison item is inserted
immediately before the trailing normal run; every other item is
appended at the tail. -/
theorem toList_insert_item {b : CircularBuffer} (hw : WF b) (hlt : b.count < b.size)
    (item : BufferItem) :
    toList (insert_item b item) =
      if item.priority = PRIORITY_URGENT ∧ item.value ≠ POISON_PILL then
        insertAtPos (toList b) (b.count - items_to_shift b) item
      else toList b ++ [item] := by
  by_cases hcond : item.priority = PRIORITY_URGENT ∧ item.value ≠ POISON_PILL
  · rw [if_pos hcond]
    by_cases hk : 0 < items_to_shift b
    · obtain ⟨hlen, hs, hh, hcnt, ht⟩ := hw
      have hkc : items_to_shift b ≤ b.count := items_to_shift_le b
      have hins : insert_item b item =
          { b with
              items := (shiftLoop b.size b.tail 0 (items_to_shift b) b.items).set
                ((b.tail + b.size - items_to_shift b) % b.size) item,
              tail := (b.tail + 1) % b.size,
              count := b.count + 1 } := by
        unfold insert_item
        rw [if_pos hcond]
        dsimp only
        rw [if_pos hk]
      rw [hins]
      set b3 : CircularBuffer :=
        ({ b with
             items := (shiftLoop b.size b.tail 0 (items_to_shift b) b.items).set
               ((b.tail + b.size - items_to_shift b) % b.size) item,
             tail := (b.tail + 1) % b.size,
             count := b.count + 1 } : CircularBuffer)
      have hc3 : b3.count = b.count + 1 := rfl
      have hi3 : b3.items = (shiftLoop b.size b.tail 0 (items_to_shift b) b.items).set
          ((b.tail + b.size - items_to_shift b) % b.size) item := rfl
      have hshlen : (shiftLoop b.size b.tail 0 (items_to_shift b) b.items).length = b.size := by
        rw [shiftLoop_length, hlen]
      have hipos : (b.tail + b.size - items_to_shift b) % b.size
          = (b.head + (b.count - items_to_shift b)) % b.size := by
        rw [ht]
        exact slot_sub hkc (by omega)
      have hspec := shiftLoop_spec (h := b.head) hs hlt hkc (items_to_shift b) 0 b.items
        hlen (by omega)
      rw [← ht] at hspec
      obtain ⟨hW, hU⟩ := hspec
      have hlog3 : ∀ q, q < b3.count →
          (toList b3).getD q default = b3.items.getD ((b.head + q) % b.size) default :=
        fun q hq => toList_getD hq
      refine ext_getD default ?_ ?_
      · rw [length_toList, hc3, length_insertAtPos _ _ (by rw [length_toList]; omega),
          length_toList]
      · intro p hp
        rw [length_toList, hc3] at hp
        rw [hlog3 p (by rw [hc3]; omega), hi3]
        rcases Nat.lt_trichotomy p (b.count - items_to_shift b) with hplt | hpeq | hpgt
        · have hne : (b.tail + b.size - items_to_shift b) % b.size
              ≠ (b.head + p) % b.size := by
            rw [hipos]
            intro heq
            have := slot_inj (show b.count - items_to_shift b < b.size by omega)
              (show p < b.size by omega) heq
            omega
          rw [getD_set_ne _ _ hne]
          have hq : ∀ j, 0 ≤ j → j < 0 + items_to_shift b →
              (b.head + p) % b.size ≠ (b.head + (b.count - j)) % b.size := by
            intro j hj1 hj2 heq
            have := slot_inj (show p < b.size by omega)
              (show b.count - j < b.size by omega) heq
            omega
          rw [hU ((b.head + p) % b.size) hq]
          rw [getD_insertAtPos_lt _ _ (by rw [length_toList]; omega) hplt]
          rw [toList_getD (show p < b.count by omega)]
          rfl
        · rw [hpeq, ← hipos]
          rw [getD_set_self _ _ (by rw [hshlen]; exact Nat.mod_lt _ hs)]
          rw [getD_insertAtPos_self _ _ (by rw [length_toList]; omega)]
        · have hne : (b.tail + b.size - items_to_shift b) % b.size
              ≠ (b.head + p) % b.size := by
            rw [hipos]
            intro heq
            have := slot_inj (show b.count - items_to_shift b < b.size by omega)
              (show p < b.size by omega) heq
            omega
          rw [getD_set_ne _ _ hne]
          have hWp := hW (b.count - p) (by omega) (by omega)
          rw [show b.count - (b.count - p) = p by omega,
            show b.count - 1 - (b.count - p) = p - 1 by omega] at hWp
          rw [hWp]
          rw [getD_insertAtPos_gt _ _ (by rw [length_toList]; omega) hpgt]
          rw [toList_getD (show p - 1 < b.count by omega)]
          rfl
    · have hk0 : items_to_shift b = 0 := by omega
      have hins : insert_item b item =
          { b with
              items := b.items.set b.tail item,
              tail := (b.tail + 1) % b.size,
              count := b.count + 1 } := by
        unfold insert_item
        rw [if_pos hcond]
        dsimp only
        rw [if_neg hk]
      rw [hins, toList_set_tail hw hlt item, hk0, Nat.sub_zero, ← length_toList,
        insertAtPos_length_self]
  · rw [if_neg hcond]
    have hins : insert_item b item =
        { b with
            items := b.items.set b.tail item,
            tail := (b.tail + 1) % b.size,
            count := b.count + 1 } := by
      unfold insert_item
      rw [if_neg hcond]
    rw [hins, toList_set_tail hw hlt item]

/-- remove_item returns the first element of the logical content. -/
theorem remove_item_fst {b : CircularBuffer} (hw : WF b) (hpos : 0 < b.count) :
    (remove_item b).1 = (toList b).getD 0 default := by
  obtain ⟨hlen, hs, hh, hcnt, ht⟩ := hw
  rw [toList_getD hpos]
  show b.items.getD b.head default = logItem b 0
  unfold logItem
  rw [Nat.add_zero, Nat.mod_eq_of_lt hh]

/-- remove_item drops the first element of the logical content. -/
theorem toList_remove_item {b : CircularBuffer} (hw : WF b) (hpos : 0 < b.count) :
    toList (remove_item b).2 = (toList b).drop 1 := by
  obtain ⟨hlen, hs, hh, hcnt, ht⟩ := hw
  have hc2 : (remove_item b).2.count = b.count - 1 := rfl
  have hlog2 : ∀ q, q < (remove_item b).2.count →
      (toList (remove_item b).2).getD q default
        = b.items.getD (((b.head + 1) % b.size + q) % b.size) default :=
    fun q hq => toList_getD hq
  refine ext_getD default ?_ ?_
  · rw [length_toList, hc2, List.length_drop, length_toList]
  · intro p hp
    rw [length_toList, hc2] at hp
    rw [hlog2 p (by rw [hc2]; omega), Nat.mod_add_mod,
      show b.head + 1 + p = b.head + (1 + p) by omega,
      getD_drop _ 1 p _ (by rw [length_toList]; omega),
      toList_getD (show 1 + p < b.count by omega)]
    rfl

/-! The sequential system model: reachable states and the semaphore
invariant. -/

/-- The system invariant: a well-formed ring whose semaphore values are
determined by the occupancy. -/
def SemInv (s : SysState) : Prop :=
  WF s.buf ∧ s.empty = s.buf.size - s.buf.count ∧ s.full = s.buf.count

/-- States reachable from a freshly initialised queue by complete
enqueue and dequeue operations whose semaphore waits are enabled, where
every enqueued item satisfies P. -/
inductive ReachableP (P : BufferItem → Prop) : SysState → Prop where
  | init : ∀ cap, 0 < cap → ReachableP P (init_buffer cap)
  | enq : ∀ s item, ReachableP P s → 0 < s.empty → P item →
      ReachableP P (enqueue s item)
  | deq : ∀ s, ReachableP P s → 0 < s.full → ReachableP P (dequeue s).2

/-- States reachable by arbitrary enqueues and dequeues. -/
def Reachable : SysState → Prop := ReachableP (fun _ => True)

theorem SemInv_init (cap : Nat) (hcap : 0 < cap) : SemInv (init_buffer cap) := by
  refine ⟨⟨?_, hcap, hcap, ?_, ?_⟩, ?_, ?_⟩ <;> simp [init_buffer]

theorem SemInv_enqueue {s : SysState} (hi : SemInv s) (hemp : 0 < s.empty)
    (item : BufferItem) : SemInv (enqueue s item) := by
  obtain ⟨hw, he, hf⟩ := hi
  have hlt : s.buf.count < s.buf.size := by omega
  obtain ⟨h1, h2, h3, h4, h5⟩ := insert_item_fields s.buf item
  refine ⟨WF_insert hw hlt item, ?_, ?_⟩
  · show s.empty - 1 = (insert_item s.buf item).size - (insert_item s.buf item).count
    rw [h1, h3]
    omega
  · show s.full + 1 = (insert_item s.buf item).count
    rw [h3]
    omega

theorem SemInv_dequeue {s : SysState} (hi : SemInv s) (hful : 0 < s.full) :
    SemInv (dequeue s).2 := by
  obtain ⟨hw, he, hf⟩ := hi
  have hcd : s.buf.count ≤ s.buf.size := hw.2.2.2.1
  have hpos : 0 < s.buf.count := by omega
  obtain ⟨h1, h2, h3, h4, h5⟩ := remove_item_fields s.buf
  refine ⟨WF_remove hw hpos, ?_, ?_⟩
  · show s.empty + 1 = (remove_item s.buf).2.size - (remove_item s.buf).2.count
    rw [h1, h2]
    omega
  · show s.full - 1 = (remove_item s.buf).2.count
    rw [h2]
    omega

theorem SemInv_of_ReachableP {P : BufferItem → Prop} {s : SysState}
    (h : ReachableP P s) : SemInv s := by
  induction h with
  | init cap hcap => exact SemInv_init cap hcap
  | enq s item hr hemp hP ih => exact SemInv_enqueue ih hemp item
  | deq s hr hful ih => exact SemInv_dequeue ih hful

/-! Two-run structure of the buffer content. -/

/-- The list equals its urgent items followed by its non-urgent items:
an urgent run then a normal run, each keeping its relative order. -/
def twoRuns (l : List BufferItem) : Prop :=
  l = l.filter is_urgent ++ l.filter (fun it => !is_urgent it)

theorem priority_of_urgent {x : BufferItem} (h : is_urgent x = true) :
    x.priority = PRIORITY_URGENT := by
  simpa [is_urgent] using h

theorem is_urgent_of_priority {x : BufferItem} (h : x.priority = PRIORITY_URGENT) :
    is_urgent x = true := by
  simp [is_urgent, h]

theorem not_urgent_of_normal {x : BufferItem} (h : x.priority = PRIORITY_NORMAL) :
    is_urgent x = false := by
  unfold is_urgent
  rw [h]
  decide

theorem getD_mem {α : Type _} {l : List α} {p : Nat} (d : α) (h : p < l.length) :
    l.getD p d ∈ l := by
  rw [getD_eq_getElem d h]
  exact List.getElem_mem h

theorem twoRuns_of_append {us ns : List BufferItem}
    (hu : ∀ x ∈ us, is_urgent x = true) (hn : ∀ x ∈ ns, is_urgent x = false) :
    twoRuns (us ++ ns) := by
  unfold twoRuns
  have h1 : us.filter is_urgent = us := List.filter_eq_self.mpr hu
  have h2 : ns.filter is_urgent = [] :=
    List.filter_eq_nil_iff.mpr (fun a ha => by simp [hn a ha])
  have h3 : us.filter (fun it => !is_urgent it) = [] :=
    List.filter_eq_nil_iff.mpr (fun a ha => by simp [hu a ha])
  have h4 : ns.filter (fun it => !is_urgent it) = ns :=
    List.filter_eq_self.mpr (fun a ha => by simp [hn a ha])
  rw [List.filter_append, List.filter_append, h1, h2, h3, h4, List.append_nil,
    List.nil_append]

theorem twoRuns_decomp {l : List BufferItem} (h : twoRuns l) :
    ∃ us ns, l = us ++ ns ∧ (∀ x ∈ us, is_urgent x = true) ∧
      (∀ x ∈ ns, is_urgent x = false) ∧ us = l.filter is_urgent ∧
      ns = l.filter (fun it => !is_urgent it) :=
  ⟨l.filter is_urgent, l.filter (fun it => !is_urgent it), h,
    fun x hx => (List.mem_filter.mp hx).2,
    fun x hx => by simpa using (List.mem_filter.mp hx).2,
    rfl, rfl⟩

theorem twoRuns_drop1 {l : List BufferItem} (h : twoRuns l) : twoRuns (l.drop 1) := by
  obtain ⟨us, ns, hdec, hu, hn, hus, hns⟩ := twoRuns_decomp h
  subst hdec
  cases us with
  | nil =>
    simp only [List.nil_append]
    have h2 : twoRuns (([] : List BufferItem) ++ ns.drop 1) :=
      twoRuns_of_append (fun x hx => by simp at hx)
        (fun x hx => hn x (List.mem_of_mem_drop hx))
    simpa using h2
  | cons a us2 =>
    have hd : ((a :: us2) ++ ns).drop 1 = us2 ++ ns := rfl
    rw [hd]
    exact twoRuns_of_append (fun x hx => hu x (List.mem_cons_of_mem a hx)) hn

/-- Every item in the suffix the shift loop moves has normal priority. -/
theorem drop_all_normal {b : CircularBuffer} {x : BufferItem}
    (hx : x ∈ (toList b).drop (b.count - items_to_shift b)) :
    x.priority = PRIORITY_NORMAL := by
  have hk := items_to_shift_le b
  obtain ⟨j, hj, hxe⟩ := List.mem_iff_getElem.mp hx
  have hj2 : j < b.count - (b.count - items_to_shift b) := by
    rw [List.length_drop, length_toList] at hj
    omega
  have hjlt : b.count - items_to_shift b + j < b.count := by omega
  have hxd : ((toList b).drop (b.count - items_to_shift b)).getD j default = x := by
    rw [getD_eq_getElem default hj]
    exact hxe
  rw [getD_drop _ _ _ _ (by rw [length_toList]; omega), toList_getD hjlt] at hxd
  rw [← hxd]
  exact items_to_shift_normal b (by omega) hjlt

/-- Under the two-run shape, with every stored item in one of the two
declared priority classes, the scan stops exactly at the urgent run:
the insertion point count - items_to_shift is the length of the urgent
run. -/
theorem insert_point_eq {b : CircularBuffer} (htr : twoRuns (toList b))
    (hord : ∀ x ∈ toList b, x.priority = PRIORITY_NORMAL ∨ x.priority = PRIORITY_URGENT) :
    b.count - items_to_shift b = ((toList b).filter is_urgent).length := by
  have hk := items_to_shift_le b
  obtain ⟨us, ns, hdec, hu, hn, hus, hns⟩ := twoRuns_decomp htr
  rw [← hus]
  have hlensum : b.count = us.length + ns.length := by
    rw [← length_toList, hdec, List.length_append]
  rcases Nat.lt_trichotomy (b.count - items_to_shift b) us.length with hlt | heq | hgt
  · exfalso
    have hp1 : b.count - items_to_shift b < b.count := by omega
    have hnorm := items_to_shift_normal b (Nat.le_refl _) hp1
    have hmem : (toList b).getD (b.count - items_to_shift b) default ∈ us := by
      rw [hdec, List.getD_append _ _ _ _ (by omega)]
      exact getD_mem default (by omega)
    have hurg := priority_of_urgent (hu _ hmem)
    rw [toList_getD hp1] at hurg
    rw [hnorm] at hurg
    exact absurd hurg (by decide)
  · exact heq
  · exfalso
    have hkc : items_to_shift b < b.count := by omega
    have hstop := items_to_shift_stop b hkc
    have hq2 : b.count - 1 - items_to_shift b < b.count := by omega
    have hmem : (toList b).getD (b.count - 1 - items_to_shift b) default ∈ ns := by
      rw [hdec, List.getD_append_right _ _ _ _ (by omega)]
      exact getD_mem default (by omega)
    have hnotu := hn _ hmem
    have hmem2 : (toList b).getD (b.count - 1 - items_to_shift b) default ∈ toList b :=
      getD_mem default (by rw [length_toList]; omega)
    rcases hord _ hmem2 with hnor | hurg
    · rw [toList_getD hq2] at hnor
      exact hstop hnor
    · rw [is_urgent_of_priority hurg] at hnotu
      exact absurd hnotu (by decide)

/-- Items of the result of insert_item come from the original content
or are the inserted item. -/
theorem mem_toList_insert {b : CircularBuffer} (hw : WF b) (hlt : b.count < b.size)
    {item x : BufferItem} (hx : x ∈ toList (insert_item b item)) :
    x ∈ toList b ∨ x = item := by
  rw [toList_insert_item hw hlt item] at hx
  split at hx
  · unfold insertAtPos at hx
    rcases List.mem_append.mp hx with h1 | h1
    · exact Or.inl (List.mem_of_mem_take h1)
    · rcases List.mem_cons.mp h1 with h2 | h2
      · exact Or.inr h2
      · exact Or.inl (List.mem_of_mem_drop h2)
  · rcases List.mem_append.mp hx with h1 | h1
    · exact Or.inl h1
    · exact Or.inr (List.mem_singleton.mp h1)

/-- insert_item preserves the two-run shape for non-sentinel items of
the declared priority classes. -/
theorem twoRuns_insert {b : CircularBuffer} (hw : WF b) (hlt : b.count < b.size)
    {item : BufferItem} (htr : twoRuns (toList b))
    (hord : ∀ x ∈ toList b, x.priority = PRIORITY_NORMAL ∨ x.priority = PRIORITY_URGENT)
    (hordit : item.priority = PRIORITY_NORMAL ∨ item.priority = PRIORITY_URGENT)
    (hnotsent : ¬(item.priority = PRIORITY_URGENT ∧ item.value = POISON_PILL)) :
    twoRuns (toList (insert_item b item)) := by
  rcases hordit with hnorm | hurg
  · have hcond : ¬(item.priority = PRIORITY_URGENT ∧ item.value ≠ POISON_PILL) := by
      intro hc
      rw [hnorm] at hc
      exact absurd hc.1 (by decide)
    rw [toList_insert_item hw hlt item, if_neg hcond]
    obtain ⟨us, ns, hdec, hu, hn, hus, hns⟩ := twoRuns_decomp htr
    rw [hdec, List.append_assoc]
    refine twoRuns_of_append hu (fun x hx => ?_)
    rcases List.mem_append.mp hx with h1 | h1
    · exact hn x h1
    · rw [List.mem_singleton.mp h1]
      exact not_urgent_of_normal hnorm
  · have hvne : item.value ≠ POISON_PILL := fun hv => hnotsent ⟨hurg, hv⟩
    have hcond : item.priority = PRIORITY_URGENT ∧ item.value ≠ POISON_PILL :=
      ⟨hurg, hvne⟩
    rw [toList_insert_item hw hlt item, if_pos hcond]
    have hpoint := insert_point_eq htr hord
    obtain ⟨us, ns, hdec, hu, hn, hus, hns⟩ := twoRuns_decomp htr
    rw [← hus] at hpoint
    unfold insertAtPos
    rw [hpoint, hdec, List.take_left, List.drop_left]
    have hsplit : us ++ item :: ns = (us ++ [item]) ++ ns := by simp
    rw [hsplit]
    refine twoRuns_of_append (fun x hx => ?_) hn
    rcases List.mem_append.mp hx with h1 | h1
    · exact hu x h1
    · rw [List.mem_singleton.mp h1]
      exact is_urgent_of_priority hurg

/-- An item of one of the two declared priority classes that is not a
shutdown sentinel. -/
def ordinaryItem (it : BufferItem) : Prop :=
  (it.priority = PRIORITY_NORMAL ∨ it.priority = PRIORITY_URGENT) ∧
  ¬(it.priority = PRIORITY_URGENT ∧ it.value = POISON_PILL)

theorem toList_init (cap : Nat) : toList (init_buffer cap).buf = [] := by
  simp [toList, init_buffer]

/-- The content invariant: in every state reachable using only ordinary
items, the buffer holds an urgent run followed by a normal run, and
every stored item is ordinary. -/
theorem twoRuns_of_ReachableP {s : SysState} (h : ReachableP ordinaryItem s) :
    twoRuns (toList s.buf) ∧ ∀ x ∈ toList s.buf, ordinaryItem x := by
  induction h with
  | init cap hcap =>
    constructor
    · rw [toList_init]
      rfl
    · intro x hx
      rw [toList_init] at hx
      simp at hx
  | enq s item hr hemp hP ih =>
    obtain ⟨hw, he, hf⟩ := SemInv_of_ReachableP hr
    have hlt : s.buf.count < s.buf.size := by omega
    obtain ⟨htr, hmem⟩ := ih
    constructor
    · exact twoRuns_insert hw hlt htr (fun x hx => (hmem x hx).1) hP.1 hP.2
    · intro x hx
      rcases mem_toList_insert hw hlt hx with h1 | h1
      · exact hmem x h1
      · rw [h1]
        exact hP
  | deq s hr hful ih =>
    obtain ⟨hw, he, hf⟩ := SemInv_of_ReachableP hr
    have hpos : 0 < s.buf.count := by omega
    obtain ⟨htr, hmem⟩ := ih
    have hbeq : (dequeue s).2.buf = (remove_item s.buf).2 := rfl
    constructor
    · rw [hbeq, toList_remove_item hw hpos]
      exact twoRuns_drop1 htr
    · intro x hx
      rw [hbeq, toList_remove_item hw hpos] at hx
      exact hmem x (List.mem_of_mem_drop hx)

/-! Per-class conservation through insert_item and remove_item. -/

theorem filter_urgent_insert {b : CircularBuffer} (hw : WF b) (hlt : b.count < b.size)
    (item : BufferItem) :
    (toList (insert_item b item)).filter is_urgent
      = (toList b).filter is_urgent ++ [item].filter is_urgent := by
  rw [toList_insert_item hw hlt item]
  split
  · rename_i hcond
    have hfd : ((toList b).drop (b.count - items_to_shift b)).filter is_urgent = [] :=
      List.filter_eq_nil_iff.mpr
        (fun a ha => by rw [not_urgent_of_normal (drop_all_normal ha)]; simp)
    have hl : (toList b).filter is_urgent
        = ((toList b).take (b.count - items_to_shift b)).filter is_urgent
          ++ ((toList b).drop (b.count - items_to_shift b)).filter is_urgent := by
      rw [← List.filter_append, List.take_append_drop]
    unfold insertAtPos
    rw [List.filter_append, List.filter_cons,
      if_pos (is_urgent_of_priority hcond.1), hfd, hl, hfd, List.append_nil]
    simp [List.filter_cons, is_urgent_of_priority hcond.1]
  · rw [List.filter_append]

theorem filter_normal_insert {b : CircularBuffer} (hw : WF b) (hlt : b.count < b.size)
    (item : BufferItem) :
    (toList (insert_item b item)).filter (fun it => !is_urgent it)
      = (toList b).filter (fun it => !is_urgent it)
        ++ [item].filter (fun it => !is_urgent it) := by
  rw [toList_insert_item hw hlt item]
  split
  · rename_i hcond
    have hitem : (!is_urgent item) = false := by
      rw [is_urgent_of_priority hcond.1]
      rfl
    have hl : (toList b).filter (fun it => !is_urgent it)
        = ((toList b).take (b.count - items_to_shift b)).filter (fun it => !is_urgent it)
          ++ ((toList b).drop (b.count - items_to_shift b)).filter
              (fun it => !is_urgent it) := by
      rw [← List.filter_append, List.take_append_drop]
    have hone : ([item]).filter (fun it => !is_urgent it) = [] := by
      rw [List.filter_cons]
      simp [hitem]
    unfold insertAtPos
    rw [List.filter_append, List.filter_cons]
    rw [if_neg (by rw [hitem]; simp), hone, List.append_nil, hl]
  · rw [List.filter_append]

/-! Driver scripts of complete operations. -/

/-- A driver step: a complete enqueue of a given item, or a complete
dequeue. -/
inductive Op where
  | enq : BufferItem → Op
  | deq : Op
deriving DecidableEq, Repr

/-- Run a script of operations; returns the final state and the list of
dequeued items in order. -/
def runOps (s : SysState) : List Op → SysState × List BufferItem
  | [] => (s, [])
  | Op.enq it :: ops => runOps (enqueue s it) ops
  | Op.deq :: ops =>
    ((runOps (dequeue s).2 ops).1, (dequeue s).1 :: (runOps (dequeue s).2 ops).2)

/-- Every semaphore wait of the script is enabled when it is reached. -/
def admissible (s : SysState) : List Op → Bool
  | [] => true
  | Op.enq it :: ops => decide (0 < s.empty) && admissible (enqueue s it) ops
  | Op.deq :: ops => decide (0 < s.full) && admissible (dequeue s).2 ops

/-- The items a script enqueues, in order. -/
def enqueuedItems (ops : List Op) : List BufferItem :=
  ops.filterMap (fun op => match op with | Op.enq it => some it | Op.deq => none)

theorem runOps_nil (s : SysState) : runOps s [] = (s, []) := rfl

theorem runOps_enq (s : SysState) (it : BufferItem) (ops : List Op) :
    runOps s (Op.enq it :: ops) = runOps (enqueue s it) ops := rfl

theorem runOps_deq (s : SysState) (ops : List Op) :
    runOps s (Op.deq :: ops)
      = ((runOps (dequeue s).2 ops).1, (dequeue s).1 :: (runOps (dequeue s).2 ops).2) :=
  rfl

theorem admissible_enq (s : SysState) (it : BufferItem) (ops : List Op) :
    admissible s (Op.enq it :: ops)
      = (decide (0 < s.empty) && admissible (enqueue s it) ops) := rfl

theorem admissible_deq (s : SysState) (ops : List Op) :
    admissible s (Op.deq :: ops)
      = (decide (0 < s.full) && admissible (dequeue s).2 ops) := rfl

theorem enqueuedItems_enq (it : BufferItem) (ops : List Op) :
    enqueuedItems (Op.enq it :: ops) = it :: enqueuedItems ops := rfl

theorem enqueuedItems_deq (ops : List Op) :
    enqueuedItems (Op.deq :: ops) = enqueuedItems ops := rfl

/-- Conservation of a priority class through a run: the class members
present initially plus those enqueued equal, in order, the class
members dequeued plus those still buffered. -/
theorem runOps_conservation (p : BufferItem → Bool)
    (hins : ∀ b : CircularBuffer, WF b → b.count < b.size → ∀ item : BufferItem,
      (toList (insert_item b item)).filter p
        = (toList b).filter p ++ [item].filter p) :
    ∀ (ops : List Op) (s : SysState), SemInv s → admissible s ops = true →
      (toList s.buf).filter p ++ (enqueuedItems ops).filter p
        = ((runOps s ops).2).filter p ++ (toList (runOps s ops).1.buf).filter p := by
  intro ops
  induction ops with
  | nil =>
    intro s hsem hadm
    rw [runOps_nil]
    simp [enqueuedItems]
  | cons op ops ih =>
    intro s hsem hadm
    cases op with
    | enq it =>
      rw [admissible_enq, Bool.and_eq_true] at hadm
      obtain ⟨h1, hadm2⟩ := hadm
      have hemp : 0 < s.empty := of_decide_eq_true h1
      obtain ⟨hw, he, hf⟩ := hsem
      have hlt : s.buf.count < s.buf.size := by omega
      have hrec := ih (enqueue s it) (SemInv_enqueue ⟨hw, he, hf⟩ hemp it) hadm2
      have hbeq : (enqueue s it).buf = insert_item s.buf it := rfl
      rw [runOps_enq, enqueuedItems_enq]
      have hsplit : (it :: enqueuedItems ops).filter p
          = [it].filter p ++ (enqueuedItems ops).filter p := by
        rw [← List.filter_append]
        rfl
      calc (toList s.buf).filter p ++ (it :: enqueuedItems ops).filter p
          = (toList s.buf).filter p
              ++ ([it].filter p ++ (enqueuedItems ops).filter p) := by
            rw [hsplit]
        _ = ((toList s.buf).filter p ++ [it].filter p)
              ++ (enqueuedItems ops).filter p := by
            rw [List.append_assoc]
        _ = (toList (enqueue s it).buf).filter p ++ (enqueuedItems ops).filter p := by
            rw [hbeq, hins s.buf hw hlt it]
        _ = ((runOps (enqueue s it) ops).2).filter p
              ++ (toList (runOps (enqueue s it) ops).1.buf).filter p := hrec
    | deq =>
      rw [admissible_deq, Bool.and_eq_true] at hadm
      obtain ⟨h1, hadm2⟩ := hadm
      have hful : 0 < s.full := of_decide_eq_true h1
      obtain ⟨hw, he, hf⟩ := hsem
      have hpos : 0 < s.buf.count := by omega
      have hrec := ih (dequeue s).2 (SemInv_dequeue ⟨hw, he, hf⟩ hful) hadm2
      rw [runOps_deq, enqueuedItems_deq]
      have hcons : toList s.buf = (dequeue s).1 :: toList (dequeue s).2.buf := by
        rw [show (dequeue s).1 = (remove_item s.buf).1 from rfl,
          remove_item_fst hw hpos,
          show (dequeue s).2.buf = (remove_item s.buf).2 from rfl,
          toList_remove_item hw hpos]
        cases hl : toList s.buf with
        | nil =>
          exfalso
          have hlen := length_toList s.buf
          rw [hl] at hlen
          simp at hlen
          omega
        | cons a t => simp
      rw [hcons]
      by_cases hpd : p (dequeue s).1 = true
      · rw [List.filter_cons, List.filter_cons, if_pos hpd, if_pos hpd,
          List.cons_append, List.cons_append]
        exact congrArg (List.cons _) hrec
      · rw [List.filter_cons, List.filter_cons, if_neg hpd, if_neg hpd]
        exact hrec

/-! Input validation and construction (validate_inputs, lines 346-377,
and the construction sequence of main, lines 382-389). -/

/-- validate_inputs applied to the already-parsed integer arguments
(the CLI arity check and atoi parsing are glue outside this model):
each non-positive value aborts the process with a non-zero exit status
before any queue state exists, modelled as an error result carrying the
message printed to stderr. -/
def validate_inputs (num_producers num_consumers buffer_size : Int) :
    Except String Unit :=
  if num_producers ≤ 0 then
    Except.error ("Error: Number of producers must be positive")
  else if num_consumers ≤ 0 then
    Except.error ("Error: Number of consumers must be positive")
  else if buffer_size ≤ 0 then
    Except.error ("Error: Buffer size must be positive")
  else Except.ok ()

/-- The construction sequence of main: validate_inputs first, then
init_buffer with the given size; a validation error propagates before
any queue state is created. -/
def setup (num_producers num_consumers buffer_size : Int) : Except String SysState :=
  match validate_inputs num_producers num_consumers buffer_size with
  | Except.error e => Except.error e
  | Except.ok _ => Except.ok (init_buffer buffer_size.toNat)

theorem setup_pos {np nc bs : Int} (h1 : 0 < np) (h2 : 0 < nc) (h3 : 0 < bs) :
    setup np nc bs = Except.ok (init_buffer bs.toNat) := by
  unfold setup validate_inputs
  rw [if_neg (by omega), if_neg (by omega), if_neg (by omega)]

theorem setup_nonpos {np nc bs : Int} (h : np ≤ 0 ∨ nc ≤ 0 ∨ bs ≤ 0) :
    ∃ e, setup np nc bs = Except.error e := by
  unfold setup validate_inputs
  by_cases h1 : np ≤ 0
  · rw [if_pos h1]
    exact ⟨_, rfl⟩
  · rw [if_neg h1]
    by_cases h2 : nc ≤ 0
    · rw [if_pos h2]
      exact ⟨_, rfl⟩
    · rw [if_neg h2]
      have h3 : bs ≤ 0 := by
        rcases h with a | a | a <;> omega
      rw [if_pos h3]
      exact ⟨_, rfl⟩

/-! The producer item generation (lines 239-247) and the consumer
termination test (line 280). -/

/-- The constant URGENT_PROBABILITY (25). -/
def URGENT_PROBABILITY : Nat := 25

/-- The payload computation of a producer iteration (line 241):
rand_r(&seed) % 1000 + 1, with the non-negative rand_r result modelled
as a natural number. -/
def producer_value (r : Nat) : Int := ((r % 1000 : Nat) : Int) + 1

/-- The priority draw of a producer iteration (line 244):
urgent when rand_r(&seed) % 100 < URGENT_PROBABILITY. -/
def producer_priority (r : Nat) : Nat :=
  if r % 100 < URGENT_PROBABILITY then PRIORITY_URGENT else PRIORITY_NORMAL

/-- The item built by one producer iteration (lines 240-247), from the
two random draws and the current timestamp. -/
def producer_item (r1 r2 : Nat) (t : Int) : BufferItem :=
  { value := producer_value r1, priority := producer_priority r2, enqueue_time := t }

/-- The consumer poison-pill test (line 280). -/
def consumer_stops (it : BufferItem) : Bool := it.value == POISON_PILL

/-! Concrete example items used by the concrete-scenario theorems. -/

/-- A Normal item with payload 10. -/
def exN1 : BufferItem := ⟨10, PRIORITY_NORMAL, 0⟩

/-- A Normal item with payload 20. -/
def exN2 : BufferItem := ⟨20, PRIORITY_NORMAL, 0⟩

/-- A non-sentinel Urgent item with payload 30. -/
def exU : BufferItem := ⟨30, PRIORITY_URGENT, 0⟩

/-- A sentinel: the poison payload with Urgent priority, exactly as
built by main at lines 447-453. -/
def exS : BufferItem := ⟨POISON_PILL, PRIORITY_URGENT, 0⟩

instance (l : List BufferItem) : Decidable (twoRuns l) := by
  unfold twoRuns
  infer_instance

instance (it : BufferItem) : Decidable (ordinaryItem it) := by
  unfold ordinaryItem
  infer_instance

/-! The claims. -/

/-- Claim C1, counterexample: enqueueing the Urgent sentinel into a
queue of capacity 2 holding one Normal item places it at the tail,
after the trailing Normal item — the traversal order is [N, S], not
[S, N] — so a sentinel is not inserted by the priority-insertion path
of other Urgent items. -/
theorem C1_counterexample :
    is_sentinel exS = true
    ∧ exS.priority = PRIORITY_URGENT
    ∧ exN1.priority = PRIORITY_NORMAL
    ∧ toList (enqueue (enqueue (init_buffer 2) exN1) exS).buf = [exN1, exS]
    ∧ toList (enqueue (enqueue (init_buffer 2) exN1) exS).buf ≠ [exS, exN1] := by
  refine ⟨rfl, rfl, rfl, by decide, by decide⟩

/-- Claim C1 (amended): insert_item special-cases sentinels: an item
carrying the poison payload bypasses the priority-insertion path and is
written at the tail exactly like a Normal item, so it follows every
item present at insertion time (trailing Normal items included), and
the logical content is the old content with the sentinel appended. -/
theorem C1_sentinel_at_tail (b : CircularBuffer) (item : BufferItem)
    (hsent : item.value = POISON_PILL) :
    insert_item b item
      = { b with items := b.items.set b.tail item,
                 tail := (b.tail + 1) % b.size, count := b.count + 1 }
    ∧ (WF b → b.count < b.size → toList (insert_item b item) = toList b ++ [item]) := by
  have hcond : ¬(item.priority = PRIORITY_URGENT ∧ item.value ≠ POISON_PILL) :=
    fun hc => hc.2 hsent
  constructor
  · unfold insert_item
    rw [if_neg hcond]
  · intro hw hlt
    rw [toList_insert_item hw hlt item, if_neg hcond]

/-- Witness for C1_sentinel_at_tail at a concrete input. -/
theorem C1_sentinel_at_tail_witness :
    exS.value = POISON_PILL
    ∧ (insert_item (init_buffer 1).buf exS
        = { (init_buffer 1).buf with
              items := (init_buffer 1).buf.items.set (init_buffer 1).buf.tail exS,
              tail := ((init_buffer 1).buf.tail + 1) % (init_buffer 1).buf.size,
              count := (init_buffer 1).buf.count + 1 }
      ∧ (WF (init_buffer 1).buf → (init_buffer 1).buf.count < (init_buffer 1).buf.size
          → toList (insert_item (init_buffer 1).buf exS)
              = toList (init_buffer 1).buf ++ [exS])) :=
  ⟨rfl, C1_sentinel_at_tail (init_buffer 1).buf exS rfl⟩

/-- Claim C2, counterexample: the state reached by enqueueing a Normal
item and then a sentinel (an Urgent item) is reachable with both
semaphore waits enabled, yet its traversal order from head is [N, S]:
an Urgent item strictly after a Normal item, which is not an Urgent run
followed by a Normal run. -/
theorem C2_counterexample :
    Reachable (enqueue (enqueue (init_buffer 2) exN1) exS)
    ∧ ¬ twoRuns (toList (enqueue (enqueue (init_buffer 2) exN1) exS).buf) := by
  constructor
  · exact ReachableP.enq _ _
      (ReachableP.enq _ _ (ReachableP.init 2 (by decide)) (by decide) trivial)
      (by decide) trivial
  · decide

/-- Running an admissible script whose enqueued items all satisfy P,
starting from a P-reachable state, ends in a P-reachable state. -/
theorem ReachableP_runOps (P : BufferItem → Prop) :
    ∀ (ops : List Op) (s : SysState), ReachableP P s → admissible s ops = true →
      (∀ it ∈ enqueuedItems ops, P it) → ReachableP P (runOps s ops).1 := by
  intro ops
  induction ops with
  | nil =>
    intro s hr hadm hP
    rw [runOps_nil]
    exact hr
  | cons op ops ih =>
    intro s hr hadm hP
    cases op with
    | enq it =>
      rw [admissible_enq, Bool.and_eq_true] at hadm
      obtain ⟨h1, hadm2⟩ := hadm
      rw [runOps_enq]
      refine ih (enqueue s it) ?_ hadm2 ?_
      · exact ReachableP.enq s it hr (of_decide_eq_true h1)
          (hP it (by rw [enqueuedItems_enq]; exact List.mem_cons_self it _))
      · intro it2 h2
        exact hP it2 (by rw [enqueuedItems_enq]; exact List.mem_cons_of_mem it h2)
    | deq =>
      rw [admissible_deq, Bool.and_eq_true] at hadm
      obtain ⟨h1, hadm2⟩ := hadm
      have hrun1 : (runOps s (Op.deq :: ops)).1 = (runOps (dequeue s).2 ops).1 := rfl
      rw [hrun1]
      refine ih (dequeue s).2 (ReachableP.deq s hr (of_decide_eq_true h1)) hadm2 ?_
      intro it2 h2
      exact hP it2 (by rw [enqueuedItems_deq]; exact h2)

/-- Claim C2 (amended): restricted to admissible runs in which every
enqueued item belongs to one of the two declared priority classes and
is not a sentinel, the invariant holds after every such run (so
insert_item and remove_item preserve it): the occupied slots in
traversal order from head form an Urgent run immediately followed by a
Normal run (either possibly empty), and each run is internally in FIFO
order of insertion — the urgent items enqueued so far, in enqueue
order, are exactly the urgent items already dequeued followed by the
urgent run, and likewise for the normal class.  Enqueueing a sentinel
breaks the shape, as the counterexample shows. -/
theorem C2_two_runs_invariant (cap : Nat) (ops : List Op) (hcap : 0 < cap)
    (hadm : admissible (init_buffer cap) ops = true)
    (hord : ∀ it ∈ enqueuedItems ops, ordinaryItem it) :
    twoRuns (toList (runOps (init_buffer cap) ops).1.buf)
    ∧ ∃ us ns,
        toList (runOps (init_buffer cap) ops).1.buf = us ++ ns
        ∧ (∀ x ∈ us, is_urgent x = true)
        ∧ (∀ x ∈ ns, is_urgent x = false)
        ∧ (enqueuedItems ops).filter is_urgent
            = ((runOps (init_buffer cap) ops).2).filter is_urgent ++ us
        ∧ (enqueuedItems ops).filter (fun it => !is_urgent it)
            = ((runOps (init_buffer cap) ops).2).filter (fun it => !is_urgent it)
              ++ ns := by
  have hreach := ReachableP_runOps ordinaryItem ops (init_buffer cap)
    (ReachableP.init cap hcap) hadm hord
  have htr := (twoRuns_of_ReachableP hreach).1
  have hsem : SemInv (init_buffer cap) := SemInv_init cap hcap
  have hcu := runOps_conservation is_urgent
    (fun b hw hlt item => filter_urgent_insert hw hlt item)
    ops (init_buffer cap) hsem hadm
  have hcn := runOps_conservation (fun it => !is_urgent it)
    (fun b hw hlt item => filter_normal_insert hw hlt item)
    ops (init_buffer cap) hsem hadm
  rw [toList_init] at hcu hcn
  refine ⟨htr, ?_⟩
  obtain ⟨us, ns, hdec, hu, hn, hus, hns⟩ := twoRuns_decomp htr
  refine ⟨us, ns, hdec, hu, hn, ?_, ?_⟩
  · rw [hus]
    simpa using hcu
  · rw [hns]
    simpa using hcn

/-- Witness for C2_two_runs_invariant on a concrete admissible script
of ordinary items. -/
theorem C2_two_runs_invariant_witness :
    twoRuns (toList (runOps (init_buffer 3) [Op.enq exN1, Op.enq exU, Op.deq]).1.buf)
    ∧ ∃ us ns,
        toList (runOps (init_buffer 3) [Op.enq exN1, Op.enq exU, Op.deq]).1.buf
          = us ++ ns
        ∧ (∀ x ∈ us, is_urgent x = true)
        ∧ (∀ x ∈ ns, is_urgent x = false)
        ∧ (enqueuedItems [Op.enq exN1, Op.enq exU, Op.deq]).filter is_urgent
            = ((runOps (init_buffer 3) [Op.enq exN1, Op.enq exU, Op.deq]).2).filter
                is_urgent ++ us
        ∧ (enqueuedItems [Op.enq exN1, Op.enq exU, Op.deq]).filter
              (fun it => !is_urgent it)
            = ((runOps (init_buffer 3) [Op.enq exN1, Op.enq exU, Op.deq]).2).filter
                (fun it => !is_urgent it) ++ ns :=
  C2_two_runs_invariant 3 [Op.enq exN1, Op.enq exU, Op.deq]
    (by decide) (by decide) (by decide)

/-- Claim C3: priority precedence on the concrete scenarios.  With
capacity 3 and content [N1, N2], enqueueing the non-sentinel urgent
item U yields logical order [U, N1, N2] and three dequeues return U,
N1, N2 in that order.  With capacity 2: enqueue N1 and N2, dequeue
(returning N1), enqueue U — exercising the circular wrap-around of the
shift — giving [U, N2], and dequeues return U then N2. -/
theorem C3_priority_precedence :
    is_sentinel exU = false
    ∧ (toList (enqueue (enqueue (enqueue (init_buffer 3) exN1) exN2) exU).buf
        = [exU, exN1, exN2]
      ∧ (dequeue (enqueue (enqueue (enqueue (init_buffer 3) exN1) exN2) exU)).1 = exU
      ∧ (dequeue (dequeue
          (enqueue (enqueue (enqueue (init_buffer 3) exN1) exN2) exU)).2).1 = exN1
      ∧ (dequeue (dequeue (dequeue
          (enqueue (enqueue (enqueue (init_buffer 3) exN1) exN2) exU)).2).2).1 = exN2)
    ∧ ((dequeue (enqueue (enqueue (init_buffer 2) exN1) exN2)).1 = exN1
      ∧ toList (enqueue
          (dequeue (enqueue (enqueue (init_buffer 2) exN1) exN2)).2 exU).buf = [exU, exN2]
      ∧ (dequeue (enqueue
          (dequeue (enqueue (enqueue (init_buffer 2) exN1) exN2)).2 exU)).1 = exU
      ∧ (dequeue (dequeue (enqueue
          (dequeue (enqueue (enqueue (init_buffer 2) exN1) exN2)).2 exU)).2).1 = exN2) := by
  decide

/-- Claim C4: in every reachable quiescent state of the sequential
embedding, 0 ≤ count ≤ capacity and availableSlots + readyItems equals
the capacity; the counters start at capacity and 0 and every complete
operation transfers one unit between them. -/
theorem C4_semaphore_invariant {s : SysState} (h : Reachable s) :
    0 ≤ s.buf.count ∧ s.buf.count ≤ s.buf.size ∧ s.empty + s.full = s.buf.size := by
  obtain ⟨hw, he, hf⟩ := SemInv_of_ReachableP h
  have hc := hw.2.2.2.1
  exact ⟨Nat.zero_le _, hc, by omega⟩

/-- Witness for C4_semaphore_invariant at a concrete reachable state. -/
theorem C4_semaphore_invariant_witness :
    0 ≤ (enqueue (init_buffer 2) exN1).buf.count
    ∧ (enqueue (init_buffer 2) exN1).buf.count ≤ (enqueue (init_buffer 2) exN1).buf.size
    ∧ (enqueue (init_buffer 2) exN1).empty + (enqueue (init_buffer 2) exN1).full
        = (enqueue (init_buffer 2) exN1).buf.size :=
  C4_semaphore_invariant
    (ReachableP.enq _ _ (ReachableP.init 2 (by decide)) (by decide) trivial)

/-- Claim C5: FIFO within each priority class.  For every admissible
script of complete enqueues and dequeues from a fresh queue, the urgent
items enqueued, in order, equal the urgent items dequeued followed by
the urgent items still buffered — and likewise for the non-urgent
class — so dequeue order within each priority class matches enqueue
order. -/
theorem C5_fifo_within_class (cap : Nat) (ops : List Op) (hcap : 0 < cap)
    (hadm : admissible (init_buffer cap) ops = true) :
    (enqueuedItems ops).filter is_urgent
      = ((runOps (init_buffer cap) ops).2).filter is_urgent
        ++ (toList (runOps (init_buffer cap) ops).1.buf).filter is_urgent
    ∧ (enqueuedItems ops).filter (fun it => !is_urgent it)
      = ((runOps (init_buffer cap) ops).2).filter (fun it => !is_urgent it)
        ++ (toList (runOps (init_buffer cap) ops).1.buf).filter
            (fun it => !is_urgent it) := by
  have hsem : SemInv (init_buffer cap) := SemInv_init cap hcap
  constructor
  · have h := runOps_conservation is_urgent
      (fun b hw hlt item => filter_urgent_insert hw hlt item)
      ops (init_buffer cap) hsem hadm
    rw [toList_init] at h
    simpa using h
  · have h := runOps_conservation (fun it => !is_urgent it)
      (fun b hw hlt item => filter_normal_insert hw hlt item)
      ops (init_buffer cap) hsem hadm
    rw [toList_init] at h
    simpa using h

/-- Witness for C5_fifo_within_class on a concrete script. -/
theorem C5_fifo_within_class_witness :
    (enqueuedItems [Op.enq exN1, Op.enq exU, Op.deq, Op.deq]).filter is_urgent
      = ((runOps (init_buffer 2) [Op.enq exN1, Op.enq exU, Op.deq, Op.deq]).2).filter
          is_urgent
        ++ (toList (runOps (init_buffer 2)
              [Op.enq exN1, Op.enq exU, Op.deq, Op.deq]).1.buf).filter is_urgent
    ∧ (enqueuedItems [Op.enq exN1, Op.enq exU, Op.deq, Op.deq]).filter
          (fun it => !is_urgent it)
      = ((runOps (init_buffer 2) [Op.enq exN1, Op.enq exU, Op.deq, Op.deq]).2).filter
          (fun it => !is_urgent it)
        ++ (toList (runOps (init_buffer 2)
              [Op.enq exN1, Op.enq exU, Op.deq, Op.deq]).1.buf).filter
            (fun it => !is_urgent it) :=
  C5_fifo_within_class 2 [Op.enq exN1, Op.enq exU, Op.deq, Op.deq]
    (by decide) (by decide)

/-- Claim C6: frame property of remove_item on any queue state with
count > 0: it returns exactly the item stored at index head, advances
head to (head+1) mod capacity, decrements count by one, and changes
nothing else — tail, capacity and the whole storage array are
untouched. -/
theorem C6_remove_item_frame (b : CircularBuffer) (hpos : 0 < b.count) :
    (remove_item b).1 = b.items.getD b.head default
    ∧ (remove_item b).2.head = (b.head + 1) % b.size
    ∧ (remove_item b).2.count + 1 = b.count
    ∧ (remove_item b).2.tail = b.tail
    ∧ (remove_item b).2.size = b.size
    ∧ (remove_item b).2.items = b.items := by
  refine ⟨rfl, rfl, ?_, rfl, rfl, rfl⟩
  show b.count - 1 + 1 = b.count
  omega

/-- Witness for C6_remove_item_frame at a concrete buffer. -/
theorem C6_remove_item_frame_witness :
    0 < (enqueue (init_buffer 1) exN1).buf.count
    ∧ ((remove_item (enqueue (init_buffer 1) exN1).buf).1
        = (enqueue (init_buffer 1) exN1).buf.items.getD
            (enqueue (init_buffer 1) exN1).buf.head default
      ∧ (remove_item (enqueue (init_buffer 1) exN1).buf).2.head
        = ((enqueue (init_buffer 1) exN1).buf.head + 1)
            % (enqueue (init_buffer 1) exN1).buf.size
      ∧ (remove_item (enqueue (init_buffer 1) exN1).buf).2.count + 1
        = (enqueue (init_buffer 1) exN1).buf.count
      ∧ (remove_item (enqueue (init_buffer 1) exN1).buf).2.tail
        = (enqueue (init_buffer 1) exN1).buf.tail
      ∧ (remove_item (enqueue (init_buffer 1) exN1).buf).2.size
        = (enqueue (init_buffer 1) exN1).buf.size
      ∧ (remove_item (enqueue (init_buffer 1) exN1).buf).2.items
        = (enqueue (init_buffer 1) exN1).buf.items) :=
  ⟨by decide, C6_remove_item_frame (enqueue (init_buffer 1) exN1).buf (by decide)⟩

/-- Claim C7: construction fails — an error result produced before any
queue state exists — exactly when the producer count, consumer count,
or capacity is ≤ 0; otherwise the queue is created with
count = head = tail = 0, availableSlots = capacity, readyItems = 0. -/
theorem C7_validation (np nc bs : Int) :
    ((∃ st, setup np nc bs = Except.ok st) ↔ (0 < np ∧ 0 < nc ∧ 0 < bs))
    ∧ ∀ st, setup np nc bs = Except.ok st →
        st.buf.count = 0 ∧ st.buf.head = 0 ∧ st.buf.tail = 0
        ∧ (st.buf.size : Int) = bs ∧ st.empty = st.buf.size ∧ st.full = 0 := by
  have hfail : ∀ st, setup np nc bs = Except.ok st → 0 < np ∧ 0 < nc ∧ 0 < bs := by
    intro st hst
    by_cases h1 : 0 < np
    · by_cases h2 : 0 < nc
      · by_cases h3 : 0 < bs
        · exact ⟨h1, h2, h3⟩
        · obtain ⟨e, he⟩ := @setup_nonpos np nc bs (Or.inr (Or.inr (by omega)))
          rw [he] at hst
          cases hst
      · obtain ⟨e, he⟩ := @setup_nonpos np nc bs (Or.inr (Or.inl (by omega)))
        rw [he] at hst
        cases hst
    · obtain ⟨e, he⟩ := @setup_nonpos np nc bs (Or.inl (by omega))
      rw [he] at hst
      cases hst
  constructor
  · constructor
    · rintro ⟨st, hst⟩
      exact hfail st hst
    · rintro ⟨h1, h2, h3⟩
      exact ⟨_, setup_pos h1 h2 h3⟩
  · intro st hst
    obtain ⟨h1, h2, h3⟩ := hfail st hst
    rw [setup_pos h1 h2 h3] at hst
    injection hst with hinj
    subst hinj
    refine ⟨rfl, rfl, rfl, ?_, rfl, rfl⟩
    show ((bs.toNat : Nat) : Int) = bs
    exact Int.toNat_of_nonneg (by omega)

/-- Witness for C7_validation at concrete arguments. -/
theorem C7_validation_witness :
    (init_buffer (10 : Int).toNat).buf.count = 0
    ∧ (init_buffer (10 : Int).toNat).buf.head = 0
    ∧ (init_buffer (10 : Int).toNat).buf.tail = 0
    ∧ ((init_buffer (10 : Int).toNat).buf.size : Int) = 10
    ∧ (init_buffer (10 : Int).toNat).empty = (init_buffer (10 : Int).toNat).buf.size
    ∧ (init_buffer (10 : Int).toNat).full = 0 :=
  (C7_validation 3 2 10).2 (init_buffer (10 : Int).toNat)
    (setup_pos (by decide) (by decide) (by decide))

/-- Claim C9: the payload a producer generates always lies in
[1, 1000], hence is never the poison value -1, so the consumer
termination branch cannot be triggered by a producer item — only by
the orchestrator-built sentinels. -/
theorem C9_producer_never_poison (r1 r2 : Nat) (t : Int) :
    1 ≤ (producer_item r1 r2 t).value ∧ (producer_item r1 r2 t).value ≤ 1000
    ∧ (producer_item r1 r2 t).value ≠ POISON_PILL
    ∧ consumer_stops (producer_item r1 r2 t) = false := by
  have h1 : r1 % 1000 < 1000 := Nat.mod_lt _ (by omega)
  have hval : (producer_item r1 r2 t).value = ((r1 % 1000 : Nat) : Int) + 1 := rfl
  have hcast : ((r1 % 1000 : Nat) : Int) < 1000 := by exact_mod_cast h1
  have hcast0 : (0 : Int) ≤ ((r1 % 1000 : Nat) : Int) := Int.ofNat_nonneg _
  refine ⟨by rw [hval]; omega, by rw [hval]; omega, ?_, ?_⟩
  · rw [hval]
    unfold POISON_PILL
    omega
  · unfold consumer_stops
    rw [hval]
    unfold POISON_PILL
    rw [beq_eq_false_iff_ne]
    omega

/-- Claim C10: round trip on the empty queue: enqueueing any item into
the freshly constructed queue and then dequeueing returns exactly that
item and leaves the queue with count = 0. -/
theorem C10_roundtrip (cap : Nat) (item : BufferItem) (hcap : 0 < cap) :
    (dequeue (enqueue (init_buffer cap) item)).1 = item
    ∧ (dequeue (enqueue (init_buffer cap) item)).2.buf.count = 0 := by
  have hw : WF (init_buffer cap).buf := (SemInv_init cap hcap).1
  have hlt : (init_buffer cap).buf.count < (init_buffer cap).buf.size := hcap
  have htl : toList (insert_item (init_buffer cap).buf item) = [item] := by
    rw [toList_insert_item hw hlt item, toList_init]
    have hz : (init_buffer cap).buf.count - items_to_shift (init_buffer cap).buf = 0 := by
      have h0 : (init_buffer cap).buf.count = 0 := rfl
      omega
    split
    · rw [hz]
      rfl
    · rfl
  have hw1 : WF (insert_item (init_buffer cap).buf item) := WF_insert hw hlt item
  have hcnt1 : (insert_item (init_buffer cap).buf item).count = 1 :=
    (insert_item_fields (init_buffer cap).buf item).2.2.1
  have hpos1 : 0 < (insert_item (init_buffer cap).buf item).count := by omega
  constructor
  · show (remove_item (insert_item (init_buffer cap).buf item)).1 = item
    rw [remove_item_fst hw1 hpos1, htl]
    rfl
  · show (remove_item (insert_item (init_buffer cap).buf item)).2.count = 0
    rw [(remove_item_fields _).2.1]
    omega

/-- Witness for C10_roundtrip at a concrete capacity and item. -/
theorem C10_roundtrip_witness :
    (dequeue (enqueue (init_buffer 1) exU)).1 = exU
    ∧ (dequeue (enqueue (init_buffer 1) exU)).2.buf.count = 0 :=
  C10_roundtrip 1 exU (by decide)
